import Mathlib

/-!
Verification of the zodsei contract-first HTTP client core.

This development shallowly embeds the request pipeline of the zodsei
repository: the JavaScript value model needed by the path utilities
(`src/utils/path.ts`), the error taxonomy (`src/errors.ts`), the
validation layer (`src/validation.ts`), the middleware chain executor
(`src/middleware/index.ts`), the retry and cache middleware
(`src/middleware/retry.ts`, `src/middleware/cache.ts`), the schema
extractor (`src/schema.ts`) and the client core (`src/client.ts`).
Definitions mirror the TypeScript source; theorems settle the claims
about them.
-/

namespace Zodsei

/-! ## JavaScript value model

A small model of the JavaScript runtime values flowing through the
client: `null`, `undefined`, strings, (integer) numbers, booleans,
arrays and plain objects.  Objects are insertion-ordered association
lists, matching `Object.entries` enumeration order. -/

inductive JSValue where
  | vNull
  | vUndefined
  | vStr (s : String)
  | vNum (n : Int)
  | vBool (b : Bool)
  | vArr (elems : List JSValue)
  | vObj (fields : List (String × JSValue))
deriving Repr

mutual

/-- JavaScript `String(value)` conversion for the modelled values. -/
def jsToString : JSValue → String
  | .vNull => "null"
  | .vUndefined => "undefined"
  | .vStr s => s
  | .vNum n => toString n
  | .vBool b => cond b "true" "false"
  | .vArr xs => jsJoin xs
  | .vObj _ => "[object Object]"

/-- `Array.prototype.toString` joins elements with `","`; `null` and
`undefined` elements render as the empty string. -/
def jsJoin : List JSValue → String
  | [] => ""
  | [x] => jsJoinElem x
  | x :: xs => jsJoinElem x ++ "," ++ jsJoin xs

def jsJoinElem : JSValue → String
  | .vNull => ""
  | .vUndefined => ""
  | .vStr s => s
  | .vNum n => toString n
  | .vBool b => cond b "true" "false"
  | .vArr xs => jsJoin xs
  | .vObj _ => "[object Object]"

end

/-- JavaScript falsiness (`!data`) for the modelled values. -/
def jsFalsy : JSValue → Bool
  | .vNull => true
  | .vUndefined => true
  | .vStr s => s = ""
  | .vNum n => n = 0
  | .vBool b => !b
  | .vArr _ => false
  | .vObj _ => false

/-- `Object.entries(value)`: own enumerable entries, in insertion
order for objects, index order for arrays and strings, empty for
primitives. -/
def jsEntries : JSValue → List (String × JSValue)
  | .vObj fs => fs
  | .vArr xs => xs.enum.map (fun p => (toString p.1, p.2))
  | .vStr s => s.data.enum.map (fun p => (toString p.1, JSValue.vStr (String.mk [p.2])))
  | _ => []

/-! ## Percent encoding

`encodeURIComponent` leaves `A-Z a-z 0-9 - _ . ! ~ * ' ( )` intact and
percent-encodes the UTF-8 bytes of every other character, with
uppercase hex digits.  `URLSearchParams` serialization
(application/x-www-form-urlencoded) instead keeps `A-Z a-z 0-9 * - . _`,
turns a space into `+`, and percent-encodes the rest. -/

def utf8Bytes (c : Char) : List Nat :=
  let n := c.toNat
  if n < 0x80 then [n]
  else if n < 0x800 then [0xC0 + n / 64, 0x80 + n % 64]
  else if n < 0x10000 then [0xE0 + n / 4096, 0x80 + (n / 64) % 64, 0x80 + n % 64]
  else [0xF0 + n / 262144, 0x80 + (n / 4096) % 64, 0x80 + (n / 64) % 64, 0x80 + n % 64]

def hexDigit (n : Nat) : Char :=
  if n < 10 then Char.ofNat ('0'.toNat + n) else Char.ofNat ('A'.toNat + n - 10)

def percentByte (b : Nat) : List Char :=
  ['%', hexDigit (b / 16), hexDigit (b % 16)]

def uriUnreserved (c : Char) : Bool :=
  ('A' ≤ c && c ≤ 'Z') || ('a' ≤ c && c ≤ 'z') || ('0' ≤ c && c ≤ '9') ||
  c = '-' || c = '_' || c = '.' || c = '!' || c = '~' || c = '*' || c = '\'' ||
  c = '(' || c = ')'

def encodeURIComponent (s : String) : String :=
  String.mk (s.data.flatMap fun c =>
    if uriUnreserved c then [c] else (utf8Bytes c).flatMap percentByte)

def formUnreserved (c : Char) : Bool :=
  ('A' ≤ c && c ≤ 'Z') || ('a' ≤ c && c ≤ 'z') || ('0' ≤ c && c ≤ '9') ||
  c = '*' || c = '-' || c = '.' || c = '_'

def formEncode (s : String) : String :=
  String.mk (s.data.flatMap fun c =>
    if formUnreserved c then [c]
    else if c = ' ' then ['+']
    else (utf8Bytes c).flatMap percentByte)

/-! ## String.prototype.replace with a string pattern

Replaces the first occurrence only.  (In `replacePath` the replacement
is an `encodeURIComponent` output, which never contains `$`, so the
special `$`-patterns of JavaScript `replace` cannot arise.) -/

def replaceFirstChars (pat rep : List Char) : List Char → List Char
  | [] => if pat.isPrefixOf ([] : List Char) then rep else []
  | c :: rest =>
      if pat.isPrefixOf (c :: rest) then rep ++ (c :: rest).drop pat.length
      else c :: replaceFirstChars pat rep rest

def replaceFirst (s pat rep : String) : String :=
  (replaceFirstChars pat.data rep.data s.data).asString

/-! ## Path utilities (`src/utils/path.ts`) -/

/-- The scan performed by `path.match(/:([^/]+)/g)`: at each `:`, the
(greedy, nonempty) run of non-`/` characters that follows is a match;
scanning resumes after it.  The second argument holds the reversed
characters of the run currently being read, or `none` outside a run;
a run that turns out empty is not a match. -/
def extractNamesAux : List Char → Option (List Char) → List String
  | [], none => []
  | [], some acc => if acc.isEmpty then [] else [acc.reverse.asString]
  | c :: rest, none =>
      if c = ':' then extractNamesAux rest (some [])
      else extractNamesAux rest none
  | c :: rest, some acc =>
      if c = '/' then
        (if acc.isEmpty then [] else [acc.reverse.asString]) ++ extractNamesAux rest none
      else extractNamesAux rest (some (c :: acc))

def extractPathParamNames (path : String) : List String :=
  extractNamesAux path.data none

/-- `replacePath`: for each `(key, value)` entry in order, replace the
first occurrence of `:key` with `encodeURIComponent(value)`. -/
def replacePath (path : String) (params : List (String × String)) : String :=
  params.foldl (fun res kv => replaceFirst res (":" ++ kv.1) (encodeURIComponent kv.2)) path

/-- The entries appended to the `URLSearchParams` by
`buildQueryString`: keys with `null`/`undefined` values are skipped,
an array value appends one entry per element (stringified), any other
value appends a single stringified entry. -/
def qsEntries : List (String × JSValue) → List (String × String)
  | [] => []
  | (k, v) :: rest =>
      match v with
      | .vNull => qsEntries rest
      | .vUndefined => qsEntries rest
      | .vArr xs => xs.map (fun item => (k, jsToString item)) ++ qsEntries rest
      | v' => (k, jsToString v') :: qsEntries rest

def serializePair (kv : String × String) : String :=
  formEncode kv.1 ++ "=" ++ formEncode kv.2

/-- `URLSearchParams.toString()`: form-urlencoded `k=v` pairs joined
with `&`. -/
def serializeQuery : List (String × String) → String
  | [] => ""
  | [kv] => serializePair kv
  | kv :: rest => serializePair kv ++ "&" ++ serializeQuery rest

def buildQueryString (params : List (String × JSValue)) : String :=
  let queryString := serializeQuery (qsEntries params)
  if queryString = "" then "" else "?" ++ queryString

/-- `baseUrl.replace(/\/$/, '')`. -/
def stripTrailingSlash (s : String) : String :=
  if s.endsWith "/" then s.dropRight 1 else s

/-- `buildUrl(baseUrl, path, query?)` from the live `utils/path.ts`
used by `client.ts` (three-argument form). -/
def buildUrl (baseUrl path : String) (query : Option (List (String × JSValue))) : String :=
  let cleanBaseUrl := stripTrailingSlash baseUrl
  let cleanPath := if path.startsWith "/" then path else "/" ++ path
  let queryString := match query with
    | none => ""
    | some q => buildQueryString q
  cleanBaseUrl ++ cleanPath ++ queryString

/-- `separateParams(path, data)`: each entry of `data` whose key is a
path-parameter name becomes a stringified path parameter, every other
entry goes to the query/body remainder; falsy `data` yields two empty
records. -/
def separateParams (path : String) (data : JSValue) :
    List (String × String) × List (String × JSValue) :=
  let pathParamNames := extractPathParamNames path
  if jsFalsy data then ([], [])
  else
    let entries := jsEntries data
    (entries.filterMap (fun kv =>
        if pathParamNames.contains kv.1 then some (kv.1, jsToString kv.2) else none),
     entries.filter (fun kv => !pathParamNames.contains kv.1))

inductive HttpMethod where
  | get | post | put | delete | patch | head | options
deriving Repr, DecidableEq

/-- `shouldHaveBody(method)`: every method except GET, HEAD, DELETE. -/
def shouldHaveBody : HttpMethod → Bool
  | .get => false
  | .head => false
  | .delete => false
  | _ => true

/-! ## Error taxonomy (`src/errors.ts`)

Every error extends `ZodseiError {message, code}`.  The modelled kinds
carry their kind-specific fields; `code` is derived from the kind. -/

structure Issue where
  path : List String
  message : String
deriving Repr, DecidableEq

inductive VType where
  | request
  | response
deriving Repr, DecidableEq

def VType.str : VType → String
  | .request => "request"
  | .response => "response"

inductive ZodseiError where
  | validation (message : String) (issues : List Issue) (vtype : VType)
  | http (message : String) (status : Nat) (statusText : String)
  | network (message : String)
  | config (message : String)
  | timeout (ms : Nat)
deriving Repr, DecidableEq

def ZodseiError.code : ZodseiError → String
  | .validation .. => "VALIDATION_ERROR"
  | .http .. => "HTTP_ERROR"
  | .network _ => "NETWORK_ERROR"
  | .config _ => "CONFIG_ERROR"
  | .timeout _ => "TIMEOUT_ERROR"

/-- The message built by `ValidationError.fromZodError`:
`` `${type} validation failed: ${issues.map(i => `${i.path.join('.')}: ${i.message}`).join(', ')}` ``. -/
def aggregateMessage (vtype : VType) (issues : List Issue) : String :=
  vtype.str ++ " validation failed: " ++
    String.intercalate ", "
      (issues.map fun i => String.intercalate "." i.path ++ ": " ++ i.message)

def ValidationError.fromZodError (issues : List Issue) (vtype : VType) : ZodseiError :=
  .validation (aggregateMessage vtype issues) issues vtype

/-! ## Validation layer (`src/validation.ts`)

A zod schema is modelled by its runtime contract: `parse` either
returns the (possibly coerced) value or raises a `ZodError` carrying a
list of issues. -/

def Validator := JSValue → Except (List Issue) JSValue

def validateRequest (schema : Option Validator) (data : JSValue) :
    Except ZodseiError JSValue :=
  match schema with
  | none => .ok data
  | some s =>
      match s data with
      | .ok v => .ok v
      | .error issues => .error (ValidationError.fromZodError issues .request)

def validateResponse (schema : Option Validator) (data : JSValue) :
    Except ZodseiError JSValue :=
  match schema with
  | none => .ok data
  | some s =>
      match s data with
      | .ok v => .ok v
      | .error issues => .error (ValidationError.fromZodError issues .response)

/-! ## Request/response contexts (`src/types.ts`) -/

structure ResponseContext where
  status : Nat
  statusText : String
  headers : List (String × String)
  data : JSValue
deriving Repr

structure RequestContext where
  url : String
  method : HttpMethod
  headers : List (String × String)
  body : JSValue
  params : List (String × String)
  query : Option (List (String × JSValue))
deriving Repr

/-! ## Middleware chain (`src/middleware/index.ts`)

A middleware's interaction with its `next` continuation is deeply
embedded: a `Prog` returns a response, raises an error, emits an
observation (log line, retry delay, retry callback), or invokes `next`
and continues depending on the settled result — which lets a middleware
run code before and after `next`, short-circuit, catch errors, or call
`next` several times, exactly the moves the executor's contract allows. -/

inductive Obs where
  | msg (s : String)
  | delayed (ms : Nat)
  | retryCb (attempt : Nat)
deriving Repr, DecidableEq

/-- Events observable during one chain execution: middleware
observations and transport (final-handler) invocations. -/
inductive Ev where
  | obs (o : Obs)
  | transport (req : RequestContext)
deriving Repr

inductive Prog where
  | ret (r : ResponseContext)
  | raise (e : ZodseiError)
  | note (o : Obs) (k : Prog)
  | call (req : RequestContext) (k : Except ZodseiError ResponseContext → Prog)

abbrev Mw := RequestContext → Prog

/-- The transport (final handler).  It may answer differently on each
invocation — the argument is the number of transport calls already
performed — which models stateful transport mocks (fail once, then
succeed). -/
abbrev Handler := Nat → RequestContext → Except ZodseiError ResponseContext

def transportCount (tr : List Ev) : Nat :=
  (tr.filter fun e => match e with | .transport _ => true | _ => false).length

def callHandler (fh : Handler) (req : RequestContext) (tr : List Ev) :
    List Ev × Except ZodseiError ResponseContext :=
  (tr ++ [.transport req], fh (transportCount tr) req)

/-- Generic interpreter for a middleware program: `emit` records an
observation in the state, `nx` interprets an invocation of `next`
(returning `none` only on fuel exhaustion of the caller). -/
def runProg {σ : Type} (emit : Obs → σ → σ)
    (nx : RequestContext → σ → Option (σ × Except ZodseiError ResponseContext)) :
    Prog → σ → Option (σ × Except ZodseiError ResponseContext)
  | .ret r, st => some (st, .ok r)
  | .raise e, st => some (st, .error e)
  | .note o p, st => runProg emit nx p (emit o st)
  | .call req k, st =>
      match nx req st with
      | none => none
      | some (st', res) => runProg emit nx (k res) st'

/-- The state of one `MiddlewareExecutor.execute` run: the shared
mutable `index` captured by the `next` closure, plus the event trace. -/
structure ExecSt where
  idx : Nat
  trace : List Ev

def emitExec (o : Obs) (st : ExecSt) : ExecSt := ⟨st.idx, st.trace ++ [.obs o]⟩

/-- The `next` closure of `MiddlewareExecutor.execute`: if the shared
index has reached the end of the list, invoke the final handler;
otherwise dispatch the middleware at the index and increment it.  The
recursion depth is bounded by the list length (the shared index grows
strictly at each nested dispatch), so `length + 1` fuel suffices. -/
def execNext (mws : List Mw) (fh : Handler) :
    Nat → RequestContext → ExecSt → Option (ExecSt × Except ZodseiError ResponseContext)
  | 0, _, _ => none
  | fuel + 1, req, st =>
      if h : st.idx < mws.length then
        runProg emitExec (execNext mws fh fuel) ((mws.get ⟨st.idx, h⟩) req)
          ⟨st.idx + 1, st.trace⟩
      else
        let hr := callHandler fh req st.trace
        some (⟨st.idx, hr.1⟩, hr.2)

/-- `MiddlewareExecutor.execute(request, finalHandler)`. -/
def execute (mws : List Mw) (fh : Handler) (request : RequestContext) :
    Option (ExecSt × Except ZodseiError ResponseContext) :=
  if mws.length = 0 then
    let hr := callHandler fh request []
    some (⟨0, hr.1⟩, hr.2)
  else execNext mws fh (mws.length + 1) request ⟨0, []⟩

def stripIdx (r : Option (ExecSt × Except ZodseiError ResponseContext)) :
    Option (List Ev × Except ZodseiError ResponseContext) :=
  r.map fun p => (p.1.trace, p.2)

/-! ### Onion composition, as the claim words it

`m0` applied with a continuation that runs `m1`, and so on, the final
continuation invoking the final handler.  Written from the claim, to
be compared with `execute`. -/

def emitTrace (o : Obs) (tr : List Ev) : List Ev := tr ++ [.obs o]

def onionRun (fh : Handler) : List Mw → RequestContext → List Ev →
    Option (List Ev × Except ZodseiError ResponseContext)
  | [], req, tr => some (callHandler fh req tr)
  | m :: rest, req, tr => runProg emitTrace (fun r t => onionRun fh rest r t) (m req) tr

/-- A middleware program that never invokes `next`. -/
def noCall : Prog → Prop
  | .ret _ => True
  | .raise _ => True
  | .note _ k => noCall k
  | .call _ _ => False

/-- A middleware program that invokes `next` at most once along every
execution path (code before and after the single call is free). -/
def linearProg : Prog → Prop
  | .ret _ => True
  | .raise _ => True
  | .note _ k => linearProg k
  | .call _ k => ∀ res, noCall (k res)

/-! ## Retry middleware (`src/middleware/retry.ts`) -/

inductive Backoff where
  | linear
  | exponential
deriving Repr, DecidableEq

/-- `defaultRetryCondition`: an `HttpError` is retried on status ≥ 500,
408 or 429; every error that is not an `HttpError` is retried. -/
def defaultRetryCondition : ZodseiError → Bool
  | .http _ status _ => 500 ≤ status || status = 408 || status = 429
  | _ => true

def calculateDelay (attempt : Nat) (baseDelay : Nat) (backoff : Backoff) : Nat :=
  match backoff with
  | .exponential => baseDelay * 2 ^ attempt
  | .linear => baseDelay * (attempt + 1)

structure RetryConfig where
  retries : Nat
  delay : Nat
  backoff : Backoff := .exponential
  retryCondition : ZodseiError → Bool := defaultRetryCondition
  onRetry : Bool := false

/-- The retry loop from iteration `attempt` on; `rem` is the number of
loop iterations left (`retries + 1 - attempt`), used as structural
fuel — the `attempt === retries` check always fires before `rem`
reaches 0, making the fuel-0 branch unreachable.  Each iteration calls
`next` with the unchanged request; on an error it rethrows on the last
attempt or when the retry condition rejects, otherwise it fires the
optional `onRetry` callback, sleeps for the computed backoff delay and
loops. -/
def retryGo (cfg : RetryConfig) (request : RequestContext) : Nat → Nat → Prog
  | _, 0 => .raise (.config "unreachable: retry loop fuel")
  | attempt, rem + 1 =>
      .call request (fun res =>
        match res with
        | .ok r => .ret r
        | .error e =>
            if attempt = cfg.retries then .raise e
            else if !cfg.retryCondition e then .raise e
            else
              let cont := Prog.note (.delayed (calculateDelay attempt cfg.delay cfg.backoff))
                (retryGo cfg request (attempt + 1) rem)
              if cfg.onRetry then .note (.retryCb (attempt + 1)) cont else cont)

def retryMiddleware (cfg : RetryConfig) : Mw :=
  fun request => retryGo cfg request 0 (cfg.retries + 1)

/-! ## Cache middleware (`src/middleware/cache.ts`) -/

structure CacheEntry where
  data : ResponseContext
  timestamp : Int
  ttl : Int
deriving Repr

/-- JS `Map.set` on an insertion-ordered association list: an existing
key is updated in place, a new key is appended. -/
def mapSet (m : List (String × CacheEntry)) (k : String) (v : CacheEntry) :
    List (String × CacheEntry) :=
  match m with
  | [] => [(k, v)]
  | (k', v') :: rest => if k' = k then (k, v) :: rest else (k', v') :: mapSet rest k v

def mapDelete (m : List (String × CacheEntry)) (k : String) : List (String × CacheEntry) :=
  match m with
  | [] => []
  | (k', v') :: rest => if k' = k then rest else (k', v') :: mapDelete rest k

/-- `MemoryCacheStorage.get` with lazy expiry check on read: an entry
with `now - timestamp > ttl` is deleted and reported absent. -/
def memoryCacheGet (cache : List (String × CacheEntry)) (now : Int) (key : String) :
    Option CacheEntry × List (String × CacheEntry) :=
  match cache.lookup key with
  | none => (none, cache)
  | some entry =>
      if now - entry.timestamp > entry.ttl then (none, mapDelete cache key)
      else (some entry, cache)

/-- `defaultShouldCache`: only successful (2xx) GET responses. -/
def defaultShouldCache (request : RequestContext) (response : ResponseContext) : Bool :=
  request.method == .get && 200 ≤ response.status && response.status < 300

structure CacheRunResult where
  result : Except ZodseiError ResponseContext
  nextCalls : Nat
  storage : List (String × CacheEntry)
deriving Repr

/-- One invocation of the middleware returned by `cacheMiddleware`:
look up the key (read clock `nowGet`); on a hit return the stored
response context without calling `next`; on a miss call `next` exactly
once (`nextResult` is what that call settles to: an error propagates
unchanged and nothing is stored) and store a response satisfying
`shouldCache` with write-time timestamp `nowSet`. -/
def cacheRun (ttl : Int) (keyGenerator : RequestContext → String)
    (shouldCache : RequestContext → ResponseContext → Bool)
    (storage : List (String × CacheEntry)) (nowGet nowSet : Int)
    (request : RequestContext)
    (nextResult : Except ZodseiError ResponseContext) : CacheRunResult :=
  let cacheKey := keyGenerator request
  match memoryCacheGet storage nowGet cacheKey with
  | (some cachedEntry, storage') => ⟨.ok cachedEntry.data, 0, storage'⟩
  | (none, storage') =>
      match nextResult with
      | .error e => ⟨.error e, 1, storage'⟩
      | .ok response =>
          if shouldCache request response then
            ⟨.ok response, 1, mapSet storage' cacheKey ⟨response, nowSet, ttl⟩⟩
          else ⟨.ok response, 1, storage'⟩

/-! ## Schema extractor (`src/schema.ts`)

The extractor works on the raw contract object, so its structural
endpoint check is modelled on JS values.  A thrown JS exception is
either a plain `Error` (no `code` field) or a taxonomized
`ZodseiError`. -/

inductive JsError where
  | plain (message : String)
  | zodsei (e : ZodseiError)
deriving Repr, DecidableEq

def JsError.codeOf : JsError → Option String
  | .plain _ => none
  | .zodsei e => some e.code

def JsError.messageOf : JsError → String
  | .plain m => m
  | .zodsei (.validation m ..) => m
  | .zodsei (.http m ..) => m
  | .zodsei (.network m) => m
  | .zodsei (.config m) => m
  | .zodsei (.timeout ms) => "Request timeout after " ++ toString ms ++ "ms"

/-- `SchemaExtractor.isEndpointDefinition`: an object carrying `path`,
`method`, `request` and `response` keys. -/
def isEndpointDefinitionJS (v : JSValue) : Bool :=
  match v with
  | .vObj fields =>
      let keys := fields.map Prod.fst
      keys.contains "path" && keys.contains "method" &&
      keys.contains "request" && keys.contains "response"
  | _ => false

/-- `SchemaExtractor.getEndpoint(path)`: returns the contract entry if
it passes the structural endpoint check, otherwise throws
`` new Error(`Endpoint "${path}" not found or is not a valid endpoint`) `` —
a plain `Error`. -/
def getEndpoint (contract : List (String × JSValue)) (path : String) :
    Except JsError JSValue :=
  let endpoint := (contract.lookup path).getD .vUndefined
  if isEndpointDefinitionJS endpoint then .ok endpoint
  else .error (.plain ("Endpoint \"" ++ path ++ "\" not found or is not a valid endpoint"))

/-! ## Client core (`src/client.ts`) -/

structure EndpointDefinition where
  path : String
  method : HttpMethod
  request : Option Validator
  response : Option Validator

structure InternalClientConfig where
  baseUrl : String
  validateRequest : Bool
  validateResponse : Bool
  headers : List (String × String)

/-- `ZodseiClient.buildRequestContext`. -/
def buildRequestContext (config : InternalClientConfig) (endpoint : EndpointDefinition)
    (data : JSValue) : RequestContext :=
  let sep := separateParams endpoint.path data
  let pathParams := sep.1
  let queryParams := sep.2
  let finalPath := replacePath endpoint.path pathParams
  let url :=
    if endpoint.method = .get then buildUrl config.baseUrl finalPath (some queryParams)
    else buildUrl config.baseUrl finalPath none
  let body :=
    if shouldHaveBody endpoint.method then
      (if endpoint.method = .get then JSValue.vUndefined else data)
    else JSValue.vUndefined
  { url := url, method := endpoint.method, headers := config.headers, body := body,
    params := pathParams,
    query := if endpoint.method = .get then some queryParams else none }

/-- `ZodseiClient.executeEndpoint`: request validation (when enabled),
context construction, the middleware chain down to the transport,
response validation (when enabled).  The trace records every transport
invocation; `none` is fuel exhaustion of the chain model only. -/
def executeEndpoint (config : InternalClientConfig) (mws : List Mw) (fh : Handler)
    (endpoint : EndpointDefinition) (data : JSValue) :
    Option (List Ev × Except ZodseiError JSValue) :=
  let validated :=
    if config.validateRequest then validateRequest endpoint.request data else .ok data
  match validated with
  | .error e => some ([], .error e)
  | .ok validatedData =>
      let requestContext := buildRequestContext config endpoint validatedData
      match execute mws fh requestContext with
      | none => none
      | some (st, .error e) => some (st.trace, .error e)
      | some (st, .ok response) =>
          let validatedResponse :=
            if config.validateResponse then validateResponse endpoint.response response.data
            else .ok response.data
          match validatedResponse with
          | .error e => some (st.trace, .error e)
          | .ok v => some (st.trace, .ok v)

/-- The argument handling of `createEndpointMethod`: the bound method
forwards its first argument only when the endpoint declares a request
schema (`targetEndpoint.request ? args[0] : undefined`). -/
def endpointMethodData (endpoint : EndpointDefinition) (args : List JSValue) : JSValue :=
  if endpoint.request.isSome then args.headD .vUndefined else .vUndefined

/-- Invoking a bound endpoint method with an argument list. -/
def endpointInvoke (config : InternalClientConfig) (mws : List Mw) (fh : Handler)
    (endpoint : EndpointDefinition) (args : List JSValue) :
    Option (List Ev × Except ZodseiError JSValue) :=
  executeEndpoint config mws fh endpoint (endpointMethodData endpoint args)


/-! ## Supporting lemmas -/

/-- Whether `pat` occurs in `s` starting at position `i`. -/
def patAt (pat s : List Char) (i : Nat) : Bool :=
  pat.isPrefixOf (s.drop i)

/-- A request validator that always rejects with one structured issue,
as a zod schema for a required missing field does. -/
def failingValidator : Validator := fun _ => .error [⟨["name"], "Required"⟩]

/-! ## Middleware chain analysis

Concrete middleware used in counterexamples and ordering checks, and
the lemmas relating the executor's shared-index `next` closure to the
onion composition described by the spec. -/

def okResp : ResponseContext := ⟨200, "OK", [], .vNull⟩

def okHandler : Handler := fun _ _ => .ok okResp

def req0 : RequestContext := ⟨"https://api.example.com/x", .get, [], .vUndefined, [], none⟩

/-- A middleware that logs around `next`: one observation before the
call, one after. -/
def logMw (name : String) : Mw := fun req =>
  .note (.msg (name ++ ":before"))
    (.call req (fun res =>
      .note (.msg (name ++ ":after"))
        (match res with
         | .ok r => .ret r
         | .error e => .raise e)))

/-- A middleware that invokes `next` twice (as a catch/retry
middleware may) and returns the second result. -/
def doubleCallMw : Mw := fun req =>
  .call req (fun _ =>
    .call req (fun res =>
      match res with
      | .ok r => .ret r
      | .error e => .raise e))

def noteCount (s : String) (tr : List Ev) : Nat :=
  (tr.filter fun e => match e with | .obs (.msg s') => s' = s | _ => false).length

def traceOf (r : Option (List Ev × Except ZodseiError ResponseContext)) : List Ev :=
  (r.map Prod.fst).getD []

/-- The observations emitted by a program that never calls `next`. -/
def progObs : Prog → List Obs
  | .note o k => o :: progObs k
  | _ => []

/-- The result of a program that never calls `next` (junk on `call`,
which `noCall` rules out). -/
def progResult : Prog → Except ZodseiError ResponseContext
  | .ret r => .ok r
  | .raise e => .error e
  | .note _ k => progResult k
  | .call _ _ => .error (.config "unreachable: no-call program")

def prependNotes : List Obs → Prog → Prog
  | [], p => p
  | o :: os, p => .note o (prependNotes os p)

/-- The state reached by emitting the notes of a no-call program. -/
def noCallState {σ : Type} (emitF : Obs → σ → σ) : Prog → σ → σ
  | .note o k, st => noCallState emitF k (emitF o st)
  | _, st => st

/-! ### composeMiddleware (`src/middleware/index.ts`)

The middleware returned by `composeMiddleware(...mws)` runs a fresh
inner `MiddlewareExecutor` over `mws` whose final handler is the outer
`next`.  It is reified as a single middleware program: `residRun`
interprets an inner program, rebuilding a residual program whose
`call` nodes are invocations of the composed middleware's own `next`;
the continuation receives the settled inner result together with the
threaded inner shared index. -/

def residRun
    (nx : RequestContext → Nat → (Except ZodseiError ResponseContext → Nat → Prog) → Prog) :
    Prog → Nat → (Except ZodseiError ResponseContext → Nat → Prog) → Prog
  | .ret r, i, k => k (.ok r) i
  | .raise e, i, k => k (.error e) i
  | .note o p, i, k => .note o (residRun nx p i k)
  | .call req c, i, k => nx req i (fun res i' => residRun nx (c res) i' k)

/-- The inner executor's `next` closure, residualized.  As in
`execNext`, the inner shared index grows strictly at each nested
dispatch, so `length + 1` fuel suffices and the fuel-0 filler is
unreachable. -/
def residNext (mws : List Mw) :
    Nat → RequestContext → Nat → (Except ZodseiError ResponseContext → Nat → Prog) → Prog
  | 0, _, _, _ => .raise (.config "unreachable: chain fuel")
  | fuel + 1, req, i, k =>
      if h : i < mws.length then
        residRun (residNext mws fuel) ((mws.get ⟨i, h⟩) req) (i + 1) k
      else .call req (fun res => k res i)

/-- The top continuation of the composed middleware: the inner
executor's settled result becomes the composed middleware's result. -/
def composeTop (res : Except ZodseiError ResponseContext) (_ : Nat) : Prog :=
  match res with
  | .ok r => .ret r
  | .error e => .raise e

/-- `composeMiddleware(...middleware)`: a single middleware running a
fresh executor over the list, with the outer `next` as final
handler. -/
def composeMiddleware (mws : List Mw) : Mw := fun request =>
  if mws.length = 0 then .call request (fun res => composeTop res 0)
  else residNext mws (mws.length + 1) request 0 composeTop

/-- Interpretation of an outer `next` that goes straight to the final
handler (the shape the outer chain takes once its index has passed the
composed middleware). -/
def handlerNext (fh : Handler) :
    RequestContext → ExecSt → Option (ExecSt × Except ZodseiError ResponseContext) :=
  fun req st => some (⟨st.idx, (callHandler fh req st.trace).1⟩, (callHandler fh req st.trace).2)

/-- The events produced by the retry loop from iteration `attempt` on
when every attempt fails with a retryable error: one transport
invocation per attempt, the optional retry callback, and the computed
backoff delay before each non-final attempt. -/
def failSegs (cfg : RetryConfig) (req : RequestContext) : Nat → Nat → List Ev
  | _, 0 => []
  | attempt, rem + 1 =>
      if rem = 0 then [.transport req]
      else
        .transport req ::
          ((if cfg.onRetry then [Ev.obs (.retryCb (attempt + 1))] else [])
            ++ (Ev.obs (.delayed (calculateDelay attempt cfg.delay cfg.backoff))
                :: failSegs cfg req (attempt + 1) rem))

/-- A transport mock that times out on the first call and succeeds on
the second. -/
def timeoutThenOk : Handler := fun n _ =>
  if n = 0 then .error (.timeout 30000) else .ok okResp



theorem replaceFirstChars_first_occ (pat rep : List Char) :
    ∀ (s : List Char) (i : Nat), patAt pat s i = true →
      (∀ j < i, patAt pat s j = false) →
      replaceFirstChars pat rep s = s.take i ++ rep ++ s.drop (i + pat.length) := by
  intro s
  induction s with
  | nil =>
      intro i hi hmin
      unfold patAt at hi
      rw [List.drop_nil] at hi
      have hi0 : i = 0 := by
        by_contra hne
        have h0 := hmin 0 (Nat.pos_of_ne_zero hne)
        unfold patAt at h0
        rw [List.drop_nil] at h0
        rw [h0] at hi
        exact Bool.noConfusion hi
      subst hi0
      simp [replaceFirstChars, hi]
  | cons c rest ih =>
      intro i hi hmin
      by_cases hp : pat.isPrefixOf (c :: rest) = true
      · have hi0 : i = 0 := by
          by_contra hne
          have h0 := hmin 0 (Nat.pos_of_ne_zero hne)
          unfold patAt at h0
          rw [List.drop_zero] at h0
          rw [h0] at hp
          exact Bool.noConfusion hp
        subst hi0
        simp [replaceFirstChars, hp]
      · have hne0 : i ≠ 0 := by
          intro h0
          subst h0
          unfold patAt at hi
          rw [List.drop_zero] at hi
          exact hp hi
        obtain ⟨i', rfl⟩ := Nat.exists_eq_succ_of_ne_zero hne0
        have hi' : patAt pat rest i' = true := by
          unfold patAt at hi ⊢
          rwa [List.drop_succ_cons] at hi
        have hmin' : ∀ j < i', patAt pat rest j = false := by
          intro j hj
          have hm := hmin (j + 1) (Nat.succ_lt_succ hj)
          unfold patAt at hm ⊢
          rwa [List.drop_succ_cons] at hm
        have hrec := ih i' hi' hmin'
        simp [replaceFirstChars, hp, hrec, List.take_succ_cons, List.drop_succ_cons,
          Nat.succ_add]

theorem replaceFirstChars_no_occ (pat rep : List Char) :
    ∀ (s : List Char), (∀ j, patAt pat s j = false) → replaceFirstChars pat rep s = s := by
  intro s
  induction s with
  | nil =>
      intro h
      have h0 := h 0
      unfold patAt at h0
      rw [List.drop_nil] at h0
      simp [replaceFirstChars, h0]
  | cons c rest ih =>
      intro h
      have h0 := h 0
      unfold patAt at h0
      rw [List.drop_zero] at h0
      have hrec := ih (fun j => by
        have hj := h (j + 1)
        unfold patAt at hj ⊢
        rwa [List.drop_succ_cons] at hj)
      simp [replaceFirstChars, h0, hrec]

theorem serializePair_length (kv : String × String) : 0 < (serializePair kv).length := by
  have h : (serializePair kv).length
      = (formEncode kv.1).length + ("=" : String).length + (formEncode kv.2).length := by
    unfold serializePair
    rw [String.length_append, String.length_append]
  have h1 : ("=" : String).length = 1 := rfl
  omega

theorem serializeQuery_cons_length (kv : String × String) (rest : List (String × String)) :
    0 < (serializeQuery (kv :: rest)).length := by
  cases rest with
  | nil => exact serializePair_length kv
  | cons kv' rest' =>
      have h : (serializeQuery (kv :: kv' :: rest')).length
          = (serializePair kv).length + ("&" : String).length
            + (serializeQuery (kv' :: rest')).length := by
        show (serializePair kv ++ "&" ++ serializeQuery (kv' :: rest')).length = _
        rw [String.length_append, String.length_append]
      have h2 := serializePair_length kv
      omega

theorem serializeQuery_cons_ne (kv : String × String) (rest : List (String × String)) :
    serializeQuery (kv :: rest) ≠ "" := by
  intro h
  have hl := serializeQuery_cons_length kv rest
  rw [h] at hl
  simp at hl

/-! ## Claims -/

/-- C7: path substitution processes the path-parameter mapping in
order; each `(name, value)` pair replaces the first occurrence of
`:name` still present in the path with the percent-encoded value;
substituting `{id: "a b"}` into `"/users/:id"` yields
`"/users/a%20b"`. -/
theorem C7_replacePath_first_occurrence :
    (∀ (path k v : String) (rest : List (String × String)),
        replacePath path ((k, v) :: rest)
          = replacePath (replaceFirst path (":" ++ k) (encodeURIComponent v)) rest)
  ∧ (∀ (s pat rep : String) (i : Nat),
        patAt pat.data s.data i = true →
        (∀ j < i, patAt pat.data s.data j = false) →
        replaceFirst s pat rep
          = (s.data.take i ++ rep.data ++ s.data.drop (i + pat.data.length)).asString)
  ∧ replacePath "/users/:id" [("id", "a b")] = "/users/a%20b" := by
  refine ⟨fun path k v rest => rfl, fun s pat rep i hi hmin => ?_, by rfl⟩
  unfold replaceFirst
  rw [replaceFirstChars_first_occ pat.data rep.data s.data i hi hmin]

/-- Witness for C7: the pattern `":id"` occurs first at position 7 of
`"/users/:id"`, and substitution replaces exactly that occurrence. -/
theorem C7_witness :
    replaceFirst "/users/:id" ":id" "a%20b"
      = (("/users/:id").data.take 7 ++ ("a%20b").data
          ++ ("/users/:id").data.drop (7 + (":id").data.length)).asString :=
  C7_replacePath_first_occurrence.2.1 "/users/:id" ":id" "a%20b" 7 (by decide) (by decide)

/-- C9: `buildQueryString` appends one entry for every key whose
value is neither null nor undefined, one entry per element (in order)
for array values, none for null/undefined values; the result is empty
iff no entries exist and otherwise begins with `?`. -/
theorem C9_buildQueryString_entries :
    (∀ (k : String) (v : JSValue) (rest : List (String × JSValue)),
        (v = .vNull ∨ v = .vUndefined) → qsEntries ((k, v) :: rest) = qsEntries rest)
  ∧ (∀ (k : String) (xs : List JSValue) (rest : List (String × JSValue)),
        qsEntries ((k, JSValue.vArr xs) :: rest)
          = xs.map (fun item => (k, jsToString item)) ++ qsEntries rest)
  ∧ (∀ (k : String) (v : JSValue) (rest : List (String × JSValue)),
        v ≠ .vNull → v ≠ .vUndefined → (∀ xs, v ≠ .vArr xs) →
        qsEntries ((k, v) :: rest) = (k, jsToString v) :: qsEntries rest)
  ∧ (∀ params : List (String × JSValue),
        (buildQueryString params = "" ↔ qsEntries params = []))
  ∧ (∀ params : List (String × JSValue),
        qsEntries params ≠ [] →
        buildQueryString params = "?" ++ serializeQuery (qsEntries params)) := by
  refine ⟨?_, ?_, ?_, ?_, ?_⟩
  · rintro k v rest (rfl | rfl) <;> rfl
  · intro k xs rest; rfl
  · intro k v rest h1 h2 h3
    cases v with
    | vNull => exact absurd rfl h1
    | vUndefined => exact absurd rfl h2
    | vArr xs => exact absurd rfl (h3 xs)
    | vStr s => rfl
    | vNum n => rfl
    | vBool b => rfl
    | vObj fs => rfl
  · intro params
    constructor
    · intro hb
      by_contra hne
      cases h : qsEntries params with
      | nil => exact hne h
      | cons e es =>
          simp only [buildQueryString] at hb
          rw [h, if_neg (serializeQuery_cons_ne e es)] at hb
          have hlen : ("?" ++ serializeQuery (e :: es)).length = 0 := by rw [hb]; rfl
          rw [String.length_append] at hlen
          have hq := serializeQuery_cons_length e es
          omega
    · intro hc
      simp [buildQueryString, hc, serializeQuery]
  · intro params hne
    cases h : qsEntries params with
    | nil => exact absurd h hne
    | cons e es =>
        simp only [buildQueryString]
        rw [h, if_neg (serializeQuery_cons_ne e es)]

/-- Witness for C9: a single numeric entry produces a query string
beginning with `?`. -/
theorem C9_witness :
    buildQueryString [("page", JSValue.vNum 1)]
      = "?" ++ serializeQuery (qsEntries [("page", JSValue.vNum 1)]) :=
  C9_buildQueryString_entries.2.2.2.2 [("page", JSValue.vNum 1)] (by decide)

/-- C2: in the built request context, a GET request carries no body,
its query is the non-path-parameter remainder of the input, and its
URL is the query-less URL with the remainder's query string appended;
a request whose method requires a body (any method other than GET,
HEAD, DELETE) carries the entire validated input as body — path
parameters are not stripped — and builds no query string. -/
theorem C2_request_context_shape :
    ∀ (config : InternalClientConfig) (endpoint : EndpointDefinition) (data : JSValue),
      (endpoint.method = .get →
        (buildRequestContext config endpoint data).body = .vUndefined ∧
        (buildRequestContext config endpoint data).query
          = some (separateParams endpoint.path data).2 ∧
        (buildRequestContext config endpoint data).url
          = buildUrl config.baseUrl
              (replacePath endpoint.path (separateParams endpoint.path data).1) none
            ++ buildQueryString (separateParams endpoint.path data).2)
      ∧ (shouldHaveBody endpoint.method = true →
        (buildRequestContext config endpoint data).body = data ∧
        (buildRequestContext config endpoint data).query = none ∧
        (buildRequestContext config endpoint data).url
          = buildUrl config.baseUrl
              (replacePath endpoint.path (separateParams endpoint.path data).1) none) := by
  intro config endpoint data
  constructor
  · intro hget
    refine ⟨?_, ?_, ?_⟩
    · simp [buildRequestContext, hget, shouldHaveBody]
    · simp [buildRequestContext, hget]
    · simp [buildRequestContext, hget, buildUrl, String.append_assoc, String.append_empty]
  · intro hbody
    have hng : endpoint.method ≠ .get := by
      intro hg
      rw [hg] at hbody
      exact Bool.noConfusion hbody
    refine ⟨?_, ?_, ?_⟩
    · simp [buildRequestContext, hbody, hng]
    · simp [buildRequestContext, hng]
    · simp [buildRequestContext, hng]

/-- Witness for C2: a POST endpoint with a path parameter sends the
entire input as body, with no query string. -/
theorem C2_witness :
    (buildRequestContext ⟨"https://api.example.com", true, true, []⟩
        ⟨"/users/:id", .post, none, none⟩
        (.vObj [("id", .vStr "7"), ("name", .vStr "Ann")])).body
      = JSValue.vObj [("id", .vStr "7"), ("name", .vStr "Ann")] ∧
    (buildRequestContext ⟨"https://api.example.com", true, true, []⟩
        ⟨"/users/:id", .post, none, none⟩
        (.vObj [("id", .vStr "7"), ("name", .vStr "Ann")])).query = none ∧
    (buildRequestContext ⟨"https://api.example.com", true, true, []⟩
        ⟨"/users/:id", .post, none, none⟩
        (.vObj [("id", .vStr "7"), ("name", .vStr "Ann")])).url
      = buildUrl "https://api.example.com"
          (replacePath "/users/:id"
            (separateParams "/users/:id"
              (.vObj [("id", .vStr "7"), ("name", .vStr "Ann")])).1) none :=
  (C2_request_context_shape ⟨"https://api.example.com", true, true, []⟩
    ⟨"/users/:id", .post, none, none⟩
    (.vObj [("id", .vStr "7"), ("name", .vStr "Ann")])).2 (by rfl)

/-- C10: when an endpoint declares no request validator, the bound
method discards its argument (the data used is `undefined` whatever the
arguments were), so invocation with any arguments equals invocation
with none: the path template receives no substitutions, the query
mapping is empty for GET requests, and the body is `undefined` for
every method. -/
theorem C10_no_request_schema_ignores_argument :
    ∀ (config : InternalClientConfig) (mws : List Mw) (fh : Handler)
      (endpoint : EndpointDefinition) (args : List JSValue),
      endpoint.request = none →
      endpointMethodData endpoint args = .vUndefined ∧
      endpointInvoke config mws fh endpoint args = endpointInvoke config mws fh endpoint [] ∧
      separateParams endpoint.path .vUndefined = ([], []) ∧
      replacePath endpoint.path [] = endpoint.path ∧
      (buildRequestContext config endpoint .vUndefined).body = .vUndefined ∧
      (buildRequestContext config endpoint .vUndefined).params = [] ∧
      (endpoint.method = .get →
        (buildRequestContext config endpoint .vUndefined).query = some []) := by
  intro config mws fh endpoint args hreq
  have hdata : ∀ a : List JSValue, endpointMethodData endpoint a = .vUndefined := by
    intro a
    simp [endpointMethodData, hreq]
  refine ⟨hdata args, ?_, ?_, by rfl, ?_, ?_, ?_⟩
  · unfold endpointInvoke
    rw [hdata args, hdata []]
  · simp [separateParams, jsFalsy]
  · by_cases hget : endpoint.method = .get
    · simp [buildRequestContext, hget, shouldHaveBody]
    · by_cases hb : shouldHaveBody endpoint.method = true
      · simp [buildRequestContext, hget, hb]
      · simp [buildRequestContext, hget, hb]
  · simp [buildRequestContext, separateParams, jsFalsy]
  · intro hget
    simp [buildRequestContext, hget, separateParams, jsFalsy]

/-- Witness for C10: a GET endpoint without request schema invoked
with a junk argument behaves as if invoked with no argument. -/
theorem C10_witness :
    endpointMethodData ⟨"/health", .get, none, none⟩ [.vStr "junk"] = .vUndefined ∧
    endpointInvoke ⟨"https://api.example.com", true, true, []⟩ [] (fun _ _ => .ok ⟨200, "OK", [], .vNull⟩)
        ⟨"/health", .get, none, none⟩ [.vStr "junk"]
      = endpointInvoke ⟨"https://api.example.com", true, true, []⟩ [] (fun _ _ => .ok ⟨200, "OK", [], .vNull⟩)
        ⟨"/health", .get, none, none⟩ [] ∧
    separateParams "/health" .vUndefined = ([], []) ∧
    replacePath "/health" [] = "/health" ∧
    (buildRequestContext ⟨"https://api.example.com", true, true, []⟩
        ⟨"/health", .get, none, none⟩ .vUndefined).body = .vUndefined ∧
    (buildRequestContext ⟨"https://api.example.com", true, true, []⟩
        ⟨"/health", .get, none, none⟩ .vUndefined).params = [] ∧
    ((⟨"/health", .get, none, none⟩ : EndpointDefinition).method = .get →
      (buildRequestContext ⟨"https://api.example.com", true, true, []⟩
        ⟨"/health", .get, none, none⟩ .vUndefined).query = some []) :=
  C10_no_request_schema_ignores_argument ⟨"https://api.example.com", true, true, []⟩ []
    (fun _ _ => .ok ⟨200, "OK", [], .vNull⟩) ⟨"/health", .get, none, none⟩ [.vStr "junk"] rfl

/-- C1: with request validation enabled, a failing request validator
makes `executeEndpoint` raise the `ValidationError` built by
`fromZodError` — type `request`, the structured issues, the aggregated
message — with an empty event trace, so the transport is invoked zero
times. -/
theorem C1_validation_failure_blocks_transport :
    ∀ (config : InternalClientConfig) (mws : List Mw) (fh : Handler)
      (endpoint : EndpointDefinition) (data : JSValue) (v : Validator) (issues : List Issue),
      config.validateRequest = true →
      endpoint.request = some v →
      v data = .error issues →
      executeEndpoint config mws fh endpoint data
        = some ([], .error (.validation (aggregateMessage .request issues) issues .request)) ∧
      (∀ tr res, executeEndpoint config mws fh endpoint data = some (tr, res) →
        transportCount tr = 0) := by
  intro config mws fh endpoint data v issues hval hreq hparse
  have hmain : executeEndpoint config mws fh endpoint data
      = some ([], .error (.validation (aggregateMessage .request issues) issues .request)) := by
    unfold executeEndpoint
    rw [hval, hreq]
    simp [validateRequest, hparse, ValidationError.fromZodError]
  refine ⟨hmain, ?_⟩
  intro tr res h
  rw [hmain] at h
  simp only [Option.some.injEq, Prod.mk.injEq] at h
  rw [← h.1]
  rfl


/-- Witness for C1: a POST endpoint with an always-failing request
schema raises the request `ValidationError` and produces no transport
event. -/
theorem C1_witness :
    executeEndpoint ⟨"https://api.example.com", true, true, []⟩ []
        (fun _ _ => .ok ⟨200, "OK", [], .vNull⟩)
        ⟨"/users", .post, some failingValidator, none⟩ (.vObj [])
      = some ([], .error (.validation (aggregateMessage .request [⟨["name"], "Required"⟩])
          [⟨["name"], "Required"⟩] .request)) :=
  (C1_validation_failure_blocks_transport ⟨"https://api.example.com", true, true, []⟩ []
    (fun _ _ => .ok ⟨200, "OK", [], .vNull⟩) ⟨"/users", .post, some failingValidator, none⟩
    (.vObj []) failingValidator [⟨["name"], "Required"⟩] rfl rfl rfl).1

/-- C6: the cache middleware answers a hit (an entry whose age does
not exceed its ttl) from the store without calling `next`; on a miss it
calls `next` exactly once, propagates its result, and stores it iff
the cacheability predicate accepts it (default: GET with 2xx status);
an entry whose age exceeds its ttl is reported absent and evicted at
read time. -/
theorem C6_cacheMiddleware_behavior :
    (∀ (ttl : Int) (kg : RequestContext → String)
        (sc : RequestContext → ResponseContext → Bool)
        (storage : List (String × CacheEntry)) (nowGet nowSet : Int)
        (req : RequestContext) (nextRes : Except ZodseiError ResponseContext)
        (entry : CacheEntry),
        (memoryCacheGet storage nowGet (kg req)).1 = some entry →
        cacheRun ttl kg sc storage nowGet nowSet req nextRes
          = ⟨.ok entry.data, 0, (memoryCacheGet storage nowGet (kg req)).2⟩)
  ∧ (∀ (ttl : Int) (kg : RequestContext → String)
        (sc : RequestContext → ResponseContext → Bool)
        (storage : List (String × CacheEntry)) (nowGet nowSet : Int)
        (req : RequestContext) (nextRes : Except ZodseiError ResponseContext),
        (memoryCacheGet storage nowGet (kg req)).1 = none →
        (cacheRun ttl kg sc storage nowGet nowSet req nextRes).nextCalls = 1 ∧
        (cacheRun ttl kg sc storage nowGet nowSet req nextRes).result = nextRes ∧
        (cacheRun ttl kg sc storage nowGet nowSet req nextRes).storage
          = match nextRes with
            | .error _ => (memoryCacheGet storage nowGet (kg req)).2
            | .ok resp =>
                if sc req resp then
                  mapSet (memoryCacheGet storage nowGet (kg req)).2 (kg req) ⟨resp, nowSet, ttl⟩
                else (memoryCacheGet storage nowGet (kg req)).2)
  ∧ (∀ (cache : List (String × CacheEntry)) (now : Int) (key : String) (entry : CacheEntry),
        cache.lookup key = some entry → now - entry.timestamp > entry.ttl →
        memoryCacheGet cache now key = (none, mapDelete cache key))
  ∧ (∀ (cache : List (String × CacheEntry)) (now : Int) (key : String) (entry : CacheEntry),
        cache.lookup key = some entry → now - entry.timestamp ≤ entry.ttl →
        memoryCacheGet cache now key = (some entry, cache))
  ∧ (∀ (req : RequestContext) (resp : ResponseContext),
        defaultShouldCache req resp = true ↔
          (req.method = .get ∧ 200 ≤ resp.status ∧ resp.status < 300)) := by
  refine ⟨?_, ?_, ?_, ?_, ?_⟩
  · intro ttl kg sc storage nowGet nowSet req nextRes entry hhit
    unfold cacheRun
    cases hm : memoryCacheGet storage nowGet (kg req) with
    | mk fst snd =>
        rw [hm] at hhit
        simp at hhit
        subst hhit
        simp [hm]
  · intro ttl kg sc storage nowGet nowSet req nextRes hmiss
    unfold cacheRun
    cases hm : memoryCacheGet storage nowGet (kg req) with
    | mk fst snd =>
        rw [hm] at hmiss
        simp at hmiss
        subst hmiss
        cases nextRes with
        | error e => simp [hm]
        | ok resp =>
            by_cases hsc : sc req resp = true
            · simp [hm, hsc]
            · simp [hm, hsc]
  · intro cache now key entry hlook hexp
    unfold memoryCacheGet
    rw [hlook]
    dsimp only
    rw [if_pos hexp]
  · intro cache now key entry hlook hfresh
    unfold memoryCacheGet
    rw [hlook]
    dsimp only
    rw [if_neg (by omega)]
  · intro req resp
    simp [defaultShouldCache, Bool.and_eq_true, beq_iff_eq, decide_eq_true_iff, and_assoc]

/-- Witness for C6: a fresh entry (age equal to its ttl) is a hit and
`next` is not called. -/
theorem C6_witness :
    cacheRun 1000 (fun _ => "k") defaultShouldCache
        [("k", ⟨⟨200, "OK", [], .vStr "cached"⟩, 0, 1000⟩)] 1000 1000
        ⟨"https://api.example.com/users", .get, [], .vUndefined, [], some []⟩ (.ok ⟨200, "OK", [], .vNull⟩)
      = ⟨.ok (⟨200, "OK", [], .vStr "cached"⟩ : ResponseContext), 0,
          (memoryCacheGet [("k", ⟨⟨200, "OK", [], .vStr "cached"⟩, 0, 1000⟩)] 1000 "k").2⟩ :=
  C6_cacheMiddleware_behavior.1 1000 (fun _ => "k") defaultShouldCache
    [("k", ⟨⟨200, "OK", [], .vStr "cached"⟩, 0, 1000⟩)] 1000 1000
    ⟨"https://api.example.com/users", .get, [], .vUndefined, [], some []⟩ (.ok ⟨200, "OK", [], .vNull⟩)
    ⟨⟨200, "OK", [], .vStr "cached"⟩, 0, 1000⟩ (by rfl)

/-- C8 counterexample: `SchemaExtractor.getEndpoint` on an absent key
throws a plain `Error` — it carries no `code` at all, in particular
not `CONFIG_ERROR` — so the claim that it raises the taxonomy's
`ConfigError` is false (the message does name the key). -/
theorem C8_counterexample :
    getEndpoint [] "x"
      = .error (.plain "Endpoint \"x\" not found or is not a valid endpoint") ∧
    (JsError.plain "Endpoint \"x\" not found or is not a valid endpoint").codeOf = none ∧
    (JsError.plain "Endpoint \"x\" not found or is not a valid endpoint").codeOf
      ≠ some "CONFIG_ERROR" := by
  refine ⟨by rfl, by rfl, by simp [JsError.codeOf]⟩

/-- C8 (amended): looking up a key that is absent or does not denote a
valid endpoint makes `getEndpoint` throw a plain `Error` (carrying no
error code, hence not the taxonomy's `ConfigError`) whose message
names the key. -/
theorem C8_amended_plain_error_names_key :
    ∀ (contract : List (String × JSValue)) (key : String),
      isEndpointDefinitionJS ((contract.lookup key).getD .vUndefined) = false →
      getEndpoint contract key
        = .error (.plain ("Endpoint \"" ++ key ++ "\" not found or is not a valid endpoint")) ∧
      (JsError.plain ("Endpoint \"" ++ key ++ "\" not found or is not a valid endpoint")).codeOf
        = none := by
  intro contract key hbad
  constructor
  · unfold getEndpoint
    rw [if_neg (by rw [hbad]; exact Bool.noConfusion)]
  · rfl

/-- Witness for the amended C8: the empty contract has no endpoint
`"x"`, and the thrown plain `Error` names it. -/
theorem C8_witness :
    getEndpoint [] "x"
      = .error (.plain ("Endpoint \"" ++ "x" ++ "\" not found or is not a valid endpoint")) ∧
    (JsError.plain ("Endpoint \"" ++ "x" ++ "\" not found or is not a valid endpoint")).codeOf
      = none :=
  C8_amended_plain_error_names_key [] "x" (by rfl)


theorem runProg_noCall {σ : Type} (emitF : Obs → σ → σ)
    (nx : RequestContext → σ → Option (σ × Except ZodseiError ResponseContext)) :
    ∀ (p : Prog), noCall p → ∀ st,
      runProg emitF nx p st = some (noCallState emitF p st, progResult p) := by
  intro p
  induction p with
  | ret r => intro _ st; rfl
  | raise e => intro _ st; rfl
  | note o k ih => intro h st; exact ih h (emitF o st)
  | call req k ih => intro h st; exact absurd h (by simp [noCall])

theorem noCallState_emitExec :
    ∀ (p : Prog) (i : Nat) (tr : List Ev),
      noCallState emitExec p ⟨i, tr⟩ = ⟨i, tr ++ (progObs p).map Ev.obs⟩ := by
  intro p
  induction p with
  | ret r => intro i tr; simp [noCallState, progObs]
  | raise e => intro i tr; simp [noCallState, progObs]
  | note o k ih => intro i tr; simp [noCallState, progObs, emitExec, ih]
  | call req k ih => intro i tr; simp [noCallState, progObs]

theorem noCallState_emitTrace :
    ∀ (p : Prog) (tr : List Ev),
      noCallState emitTrace p tr = tr ++ (progObs p).map Ev.obs := by
  intro p
  induction p with
  | ret r => intro tr; simp [noCallState, progObs]
  | raise e => intro tr; simp [noCallState, progObs]
  | note o k ih => intro tr; simp [noCallState, progObs, emitTrace, ih]
  | call req k ih => intro tr; simp [noCallState, progObs]

theorem transportCount_append (tr tr' : List Ev) :
    transportCount (tr ++ tr') = transportCount tr + transportCount tr' := by
  simp [transportCount, List.filter_append]

theorem transportCount_obs (o : Obs) : transportCount [.obs o] = 0 := by rfl

theorem transportCount_obsList (os : List Obs) :
    transportCount (os.map Ev.obs) = 0 := by
  induction os with
  | nil => rfl
  | cons o os ih =>
      have h : (Ev.obs o :: os.map Ev.obs) = [Ev.obs o] ++ os.map Ev.obs := rfl
      simp only [List.map_cons, h, transportCount_append, ih, transportCount_obs]

/-- Executor side and onion side agree on a middleware program that
invokes `next` at most once, provided the two `next` interpretations
agree at the shared index the program is dispatched with: before the
single call only notes run (the index stays put), and after it no
further call occurs, so the index divergence cannot be observed. -/
theorem runProg_linear_eq (i : Nat)
    (nx₁ : RequestContext → ExecSt → Option (ExecSt × Except ZodseiError ResponseContext))
    (nx₂ : RequestContext → List Ev → Option (List Ev × Except ZodseiError ResponseContext))
    (hnx : ∀ req tr, stripIdx (nx₁ req ⟨i, tr⟩) = nx₂ req tr) :
    ∀ (p : Prog), linearProg p →
      ∀ tr, stripIdx (runProg emitExec nx₁ p ⟨i, tr⟩) = runProg emitTrace nx₂ p tr := by
  intro p
  induction p with
  | ret r => intro _ tr; rfl
  | raise e => intro _ tr; rfl
  | note o k ih => intro h tr; exact ih h (tr ++ [.obs o])
  | call req k _ =>
      intro h tr
      have hc := hnx req tr
      cases hn1 : nx₁ req ⟨i, tr⟩ with
      | none =>
          rw [hn1] at hc
          simp only [stripIdx, Option.map_none'] at hc
          simp [runProg, hn1, ← hc, stripIdx]
      | some pr =>
          obtain ⟨st', res⟩ := pr
          rw [hn1] at hc
          simp only [stripIdx, Option.map_some'] at hc
          simp only [runProg, hn1, ← hc]
          rw [runProg_noCall emitExec nx₁ (k res) (h res) st',
            runProg_noCall emitTrace nx₂ (k res) (h res) st'.trace]
          have hst : st' = (⟨st'.idx, st'.trace⟩ : ExecSt) := rfl
          rw [hst, noCallState_emitExec, noCallState_emitTrace]
          rfl

/-- The executor's `next` closure, run from shared index `i`, behaves
as the onion composition of the middleware from position `i` on, for
middleware that invoke `next` at most once. -/
theorem execNext_eq_onion (mws : List Mw) (fh : Handler)
    (hlin : ∀ m ∈ mws, ∀ req, linearProg (m req)) :
    ∀ (fuel i : Nat), mws.length - i < fuel →
      ∀ req tr,
        stripIdx (execNext mws fh fuel req ⟨i, tr⟩) = onionRun fh (mws.drop i) req tr := by
  intro fuel
  induction fuel with
  | zero => intro i h; omega
  | succ fuel ih =>
      intro i hbound req tr
      by_cases hi : i < mws.length
      · have hdrop : mws.drop i = mws.get ⟨i, hi⟩ :: mws.drop (i + 1) := by
          rw [List.drop_eq_getElem_cons hi]
          rfl
        rw [hdrop]
        have hexec : execNext mws fh (fuel + 1) req ⟨i, tr⟩
            = runProg emitExec (execNext mws fh fuel) ((mws.get ⟨i, hi⟩) req)
                ⟨i + 1, tr⟩ := by
          simp only [execNext]
          rw [dif_pos hi]
        rw [hexec]
        simp only [onionRun]
        exact runProg_linear_eq (i + 1) (execNext mws fh fuel)
          (fun r t => onionRun fh (mws.drop (i + 1)) r t)
          (fun req' tr' => ih (i + 1) (by omega) req' tr')
          ((mws.get ⟨i, hi⟩) req) (hlin _ (List.get_mem mws i hi) req) tr
      · have hge : mws.length ≤ i := Nat.le_of_not_lt hi
        rw [List.drop_eq_nil_of_le hge]
        have hexec : execNext mws fh (fuel + 1) req ⟨i, tr⟩
            = some (⟨i, (callHandler fh req tr).1⟩, (callHandler fh req tr).2) := by
          simp only [execNext]
          rw [dif_neg hi]
        rw [hexec]
        simp [onionRun, stripIdx]


theorem execNext_past_end (mws : List Mw) (fh : Handler) (req : RequestContext)
    (st : ExecSt) (h : mws.length ≤ st.idx) :
    ∀ fuel, 0 < fuel → execNext mws fh fuel req st = handlerNext fh req st := by
  intro fuel hf
  cases fuel with
  | zero => omega
  | succ f =>
      simp only [execNext]
      rw [dif_neg (by omega)]
      rfl

/-- Two `next` interpretations that agree on states satisfying an
invariant preserved by emission and by the first interpretation give
the same run. -/
theorem runProg_nx_congr {σ : Type} (emitF : Obs → σ → σ)
    (nx₁ nx₂ : RequestContext → σ → Option (σ × Except ZodseiError ResponseContext))
    (P : σ → Prop)
    (hemit : ∀ o st, P st → P (emitF o st))
    (hnx : ∀ req st, P st → nx₁ req st = nx₂ req st)
    (hpres : ∀ req st st' res, P st → nx₁ req st = some (st', res) → P st') :
    ∀ (q : Prog) (st : σ), P st → runProg emitF nx₁ q st = runProg emitF nx₂ q st := by
  intro q
  induction q with
  | ret r => intro st _; rfl
  | raise e => intro st _; rfl
  | note o k ih => intro st h; exact ih (emitF o st) (hemit o st h)
  | call req k ih =>
      intro st h
      simp only [runProg]
      rw [← hnx req st h]
      cases hn : nx₁ req st with
      | none => rfl
      | some pr =>
          obtain ⟨st', res⟩ := pr
          exact ih res st' (hpres req st st' res h hn)

theorem residRun_noCall
    (nx : RequestContext → Nat → (Except ZodseiError ResponseContext → Nat → Prog) → Prog) :
    ∀ (p : Prog), noCall p → ∀ (j : Nat) (k : Except ZodseiError ResponseContext → Nat → Prog),
      residRun nx p j k = prependNotes (progObs p) (k (progResult p) j) := by
  intro p
  induction p with
  | ret r => intro _ j k; rfl
  | raise e => intro _ j k; rfl
  | note o p' ih =>
      intro h j k
      show Prog.note o (residRun nx p' j k) = Prog.note o (prependNotes (progObs p') (k (progResult p') j))
      rw [ih h j k]
  | call req c ih => intro h j k; exact absurd h (by simp [noCall])

theorem runProg_prependNotes {σ : Type} (emitF : Obs → σ → σ)
    (nx : RequestContext → σ → Option (σ × Except ZodseiError ResponseContext)) :
    ∀ (os : List Obs) (p : Prog) (st : σ),
      runProg emitF nx (prependNotes os p) st
        = runProg emitF nx p (os.foldl (fun s o => emitF o s) st) := by
  intro os
  induction os with
  | nil => intro p st; rfl
  | cons o os ih => intro p st; exact ih p (emitF o st)

theorem foldl_emitExec :
    ∀ (os : List Obs) (i : Nat) (tr : List Ev),
      os.foldl (fun s o => emitExec o s) ⟨i, tr⟩ = ⟨i, tr ++ os.map Ev.obs⟩ := by
  intro os
  induction os with
  | nil => intro i tr; simp
  | cons o os ih =>
      intro i tr
      show os.foldl (fun s o => emitExec o s) ⟨i, tr ++ [.obs o]⟩ = _
      rw [ih]
      simp

/-- Running a residualized linear program under the outer handler
agrees with running the program directly under the inner semantic
`next`, provided the two `next`s correspond at the dispatch index. -/
theorem residRun_linear (fh : Handler) (j : Nat)
    (nxR : RequestContext → Nat → (Except ZodseiError ResponseContext → Nat → Prog) → Prog)
    (nxS : RequestContext → ExecSt → Option (ExecSt × Except ZodseiError ResponseContext))
    (hcorr : ∀ (req : RequestContext) (k' : Except ZodseiError ResponseContext → Nat → Prog)
        (st' : ExecSt),
        runProg emitExec (handlerNext fh) (nxR req j k') st'
          = match nxS req ⟨j, st'.trace⟩ with
            | none => none
            | some (st₂, res) =>
                runProg emitExec (handlerNext fh) (k' res st₂.idx) ⟨st'.idx, st₂.trace⟩) :
    ∀ (p : Prog), linearProg p →
      ∀ (k : Except ZodseiError ResponseContext → Nat → Prog) (st : ExecSt),
        runProg emitExec (handlerNext fh) (residRun nxR p j k) st
          = match runProg emitExec nxS p ⟨j, st.trace⟩ with
            | none => none
            | some (st₂, res) =>
                runProg emitExec (handlerNext fh) (k res st₂.idx) ⟨st.idx, st₂.trace⟩ := by
  intro p
  induction p with
  | ret r => intro _ k st; rfl
  | raise e => intro _ k st; rfl
  | note o p' ih =>
      intro h k st
      exact ih h k (emitExec o st)
  | call req c _ =>
      intro h k st
      show runProg emitExec (handlerNext fh)
          (nxR req j (fun res i' => residRun nxR (c res) i' k)) st = _
      rw [hcorr req (fun res i' => residRun nxR (c res) i' k) st]
      simp only [runProg]
      cases hn : nxS req ⟨j, st.trace⟩ with
      | none => rfl
      | some pr =>
          obtain ⟨st₂, res⟩ := pr
          dsimp only
          rw [residRun_noCall nxR (c res) (h res) st₂.idx k,
            runProg_prependNotes emitExec (handlerNext fh) (progObs (c res)),
            foldl_emitExec (progObs (c res)) st.idx st₂.trace,
            runProg_noCall emitExec nxS (c res) (h res) st₂]
          have hst₂ : st₂ = (⟨st₂.idx, st₂.trace⟩ : ExecSt) := rfl
          rw [hst₂, noCallState_emitExec]

/-- The residualized inner `next` corresponds to the semantic inner
`next`, for linear middleware and sufficient fuel. -/
theorem residNext_corr (mws : List Mw) (fh : Handler)
    (hlin : ∀ m ∈ mws, ∀ req, linearProg (m req)) :
    ∀ (fuel j : Nat), mws.length - j < fuel →
      ∀ (req : RequestContext) (k' : Except ZodseiError ResponseContext → Nat → Prog)
        (st' : ExecSt),
        runProg emitExec (handlerNext fh) (residNext mws fuel req j k') st'
          = match execNext mws fh fuel req ⟨j, st'.trace⟩ with
            | none => none
            | some (st₂, res) =>
                runProg emitExec (handlerNext fh) (k' res st₂.idx) ⟨st'.idx, st₂.trace⟩ := by
  intro fuel
  induction fuel with
  | zero => intro j h; omega
  | succ fuel ih =>
      intro j hbound req k' st'
      by_cases hj : j < mws.length
      · have hres : residNext mws (fuel + 1) req j k'
            = residRun (residNext mws fuel) ((mws.get ⟨j, hj⟩) req) (j + 1) k' := by
          simp only [residNext]
          rw [dif_pos hj]
        have hexec : execNext mws fh (fuel + 1) req ⟨j, st'.trace⟩
            = runProg emitExec (execNext mws fh fuel) ((mws.get ⟨j, hj⟩) req)
                ⟨j + 1, st'.trace⟩ := by
          simp only [execNext]
          rw [dif_pos hj]
        rw [hres, hexec]
        exact residRun_linear fh (j + 1) (residNext mws fuel) (execNext mws fh fuel)
          (fun req₂ k₂ st₂ => ih (j + 1) (by omega) req₂ k₂ st₂)
          ((mws.get ⟨j, hj⟩) req) (hlin _ (List.get_mem mws j hj) req) k' st'
      · have hres : residNext mws (fuel + 1) req j k'
            = .call req (fun res => k' res j) := by
          simp only [residNext]
          rw [dif_neg hj]
        have hexec : execNext mws fh (fuel + 1) req ⟨j, st'.trace⟩
            = some (⟨j, st'.trace ++ [.transport req]⟩,
                fh (transportCount st'.trace) req) := by
          simp only [execNext]
          rw [dif_neg hj]
          rfl
        rw [hres, hexec]
        rfl

/-- For middleware invoking `next` at most once, the chain with the
composed middleware substituted for its sub-list behaves exactly as
the sub-list itself: `composeMiddleware` preserves the ordering
semantics recursively. -/
theorem composeMiddleware_execute (mws : List Mw) (fh : Handler) (req : RequestContext)
    (hlin : ∀ m ∈ mws, ∀ r, linearProg (m r)) :
    stripIdx (execute [composeMiddleware mws] fh req) = stripIdx (execute mws fh req) := by
  have h1 : execute [composeMiddleware mws] fh req
      = runProg emitExec (execNext [composeMiddleware mws] fh 1)
          (composeMiddleware mws req) ⟨1, []⟩ := by
    simp only [execute]
    rw [if_neg (by simp)]
    simp only [execNext]
    rw [dif_pos (by simp)]
    rfl
  have h2 : runProg emitExec (execNext [composeMiddleware mws] fh 1)
        (composeMiddleware mws req) ⟨1, []⟩
      = runProg emitExec (handlerNext fh) (composeMiddleware mws req) ⟨1, []⟩ := by
    refine runProg_nx_congr emitExec _ _ (fun st => 1 ≤ st.idx)
      (fun o st h => h)
      (fun req' st h =>
        execNext_past_end [composeMiddleware mws] fh req' st (by simpa using h) 1 (by omega))
      ?_ (composeMiddleware mws req) ⟨1, []⟩ (Nat.le_refl 1)
    intro req' st st' res h heq
    rw [execNext_past_end [composeMiddleware mws] fh req' st (by simpa using h) 1
      (by omega)] at heq
    simp only [handlerNext, Option.some.injEq, Prod.mk.injEq] at heq
    rw [← heq.1]
    exact h
  rw [h1, h2]
  by_cases hm : mws.length = 0
  · have hmnil : mws = [] := List.length_eq_zero.mp hm
    subst hmnil
    cases hres : fh 0 req with
    | ok r =>
        simp [composeMiddleware, runProg, handlerNext, callHandler, execute, stripIdx,
          transportCount, hres, composeTop]
    | error e =>
        simp [composeMiddleware, runProg, handlerNext, callHandler, execute, stripIdx,
          transportCount, hres, composeTop]
  · have hc : composeMiddleware mws req = residNext mws (mws.length + 1) req 0 composeTop := by
      simp only [composeMiddleware]
      rw [if_neg hm]
    rw [hc]
    rw [residNext_corr mws fh hlin (mws.length + 1) 0 (by omega) req composeTop ⟨1, []⟩]
    have hex : execute mws fh req = execNext mws fh (mws.length + 1) req ⟨0, []⟩ := by
      simp only [execute]
      rw [if_neg hm]
    rw [hex]
    cases hE : execNext mws fh (mws.length + 1) req ⟨0, []⟩ with
    | none => rfl
    | some pr =>
        obtain ⟨st₂, res⟩ := pr
        cases res with
        | ok r => rfl
        | error e => rfl

/-- C3 counterexample: with the list `[doubleCallMw, logMw "y"]` the
executor runs the logging middleware once (its shared index has
already passed it when `next` is invoked the second time) while the
onion composition runs it twice, so chain execution does not equal the
onion composition for middleware that call `next` more than once. -/
theorem C3_counterexample :
    noteCount "y:before" (traceOf (stripIdx (execute [doubleCallMw, logMw "y"] okHandler req0))) = 1 ∧
    noteCount "y:before" (traceOf (onionRun okHandler [doubleCallMw, logMw "y"] req0 [])) = 2 ∧
    stripIdx (execute [doubleCallMw, logMw "y"] okHandler req0)
      ≠ onionRun okHandler [doubleCallMw, logMw "y"] req0 [] := by
  refine ⟨by rfl, by rfl, ?_⟩
  intro h
  have h1 : noteCount "y:before"
      (traceOf (stripIdx (execute [doubleCallMw, logMw "y"] okHandler req0))) = 1 := by rfl
  rw [h] at h1
  have h2 : noteCount "y:before"
      (traceOf (onionRun okHandler [doubleCallMw, logMw "y"] req0 [])) = 2 := by rfl
  rw [h1] at h2
  exact Nat.noConfusion (Nat.succ.inj h2)

/-- C4 counterexample: in the chain `[doubleCallMw, logMw "z"]` the
doubly-calling middleware reaches the transport twice, but the
subsequent logging middleware runs only once — the second invocation
of `next` does not re-run the remainder of the chain. -/
theorem C4_counterexample :
    transportCount (traceOf (stripIdx (execute [doubleCallMw, logMw "z"] okHandler req0))) = 2 ∧
    noteCount "z:before" (traceOf (stripIdx (execute [doubleCallMw, logMw "z"] okHandler req0))) = 1 ∧
    (1 : Nat) ≠ 2 := by
  exact ⟨by rfl, by rfl, by omega⟩

/-- C3 (amended): for middleware that invoke their continuation at
most once per activation, executing the chain equals the onion
composition (m0 wrapping m1 wrapping … wrapping the transport); in
particular with `[X, Y]` the observed order is X-before, Y-before,
transport, Y-after, X-after; and `composeMiddleware` of a sub-list
preserves this ordering semantics recursively.  (Because the
executor's `next` closure shares one mutable index, the equality does
not extend to middleware calling `next` more than once.) -/
theorem C3_onion_composition_single_call :
    (∀ (mws : List Mw) (fh : Handler) (req : RequestContext),
        (∀ m ∈ mws, ∀ r, linearProg (m r)) →
        stripIdx (execute mws fh req) = onionRun fh mws req [])
  ∧ stripIdx (execute [logMw "X", logMw "Y"] okHandler req0)
      = some ([.obs (.msg "X:before"), .obs (.msg "Y:before"), .transport req0,
          .obs (.msg "Y:after"), .obs (.msg "X:after")], .ok okResp)
  ∧ (∀ (mws : List Mw) (fh : Handler) (req : RequestContext),
        (∀ m ∈ mws, ∀ r, linearProg (m r)) →
        stripIdx (execute [composeMiddleware mws] fh req) = stripIdx (execute mws fh req)) := by
  refine ⟨?_, by rfl, fun mws fh req hlin => composeMiddleware_execute mws fh req hlin⟩
  intro mws fh req hlin
  by_cases hm : mws.length = 0
  · have hnil : mws = [] := List.length_eq_zero.mp hm
    subst hnil
    rfl
  · have hex : execute mws fh req = execNext mws fh (mws.length + 1) req ⟨0, []⟩ := by
      simp only [execute]
      rw [if_neg hm]
    rw [hex]
    have heq := execNext_eq_onion mws fh hlin (mws.length + 1) 0 (by omega) req []
    rwa [List.drop_zero] at heq

/-- Witness for C3: a single logging middleware is linear, and the
executor agrees with the onion composition on it. -/
theorem C3_witness :
    stripIdx (execute [logMw "A"] okHandler req0) = onionRun okHandler [logMw "A"] req0 [] :=
  C3_onion_composition_single_call.1 [logMw "A"] okHandler req0 (by
    intro m hm r
    have hmeq : m = logMw "A" := by simpa using hm
    subst hmeq
    simp only [logMw, linearProg]
    intro res
    cases res <;> simp [noCall])

/-- C4 (amended): an invocation of `next` executes only the part of
the chain the shared index has not yet passed: once the index has
moved beyond the end of the list, a `next` call invokes the transport
alone (so a catch/retry middleware re-invokes the transport but not
the middleware between it and the transport); and a middleware that
never calls `next` short-circuits — neither subsequent middleware nor
the transport runs. -/
theorem C4_next_runs_unvisited_remainder :
    (∀ (mws : List Mw) (fh : Handler) (req : RequestContext) (st : ExecSt) (fuel : Nat),
        mws.length ≤ st.idx → 0 < fuel →
        execNext mws fh fuel req st
          = some (⟨st.idx, st.trace ++ [.transport req]⟩,
              fh (transportCount st.trace) req))
  ∧ (∀ (m : Mw) (rest : List Mw) (fh : Handler) (req : RequestContext),
        noCall (m req) →
        stripIdx (execute (m :: rest) fh req)
          = some ((progObs (m req)).map Ev.obs, progResult (m req)) ∧
        transportCount ((progObs (m req)).map Ev.obs) = 0) := by
  constructor
  · intro mws fh req st fuel hge hf
    rw [execNext_past_end mws fh req st hge fuel hf]
    rfl
  · intro m rest fh req hnc
    refine ⟨?_, transportCount_obsList _⟩
    have hex : execute (m :: rest) fh req
        = execNext (m :: rest) fh ((m :: rest).length + 1) req ⟨0, []⟩ := by
      simp only [execute]
      rw [if_neg (by simp)]
    rw [hex]
    have hstep : execNext (m :: rest) fh ((m :: rest).length + 1) req ⟨0, []⟩
        = runProg emitExec (execNext (m :: rest) fh (m :: rest).length) (m req) ⟨1, []⟩ := by
      simp only [execNext]
      rw [dif_pos (by simp)]
      rfl
    rw [hstep, runProg_noCall emitExec _ (m req) hnc ⟨1, []⟩, noCallState_emitExec]
    simp [stripIdx]

/-- Witness for C4: with one middleware in the chain, a `next` call at
shared index 1 (past the end) invokes the transport alone. -/
theorem C4_witness :
    execNext [logMw "w"] okHandler 1 req0 ⟨1, []⟩
      = some (⟨1, [] ++ [.transport req0]⟩, okHandler (transportCount []) req0) :=
  C4_next_runs_unvisited_remainder.1 [logMw "w"] okHandler req0 ⟨1, []⟩ 1
    (Nat.le_refl 1) Nat.zero_lt_one

/-! ### Retry middleware analysis -/

theorem transportCount_transport (req : RequestContext) :
    transportCount [.transport req] = 1 := rfl

/-- A single-middleware chain runs the middleware's program with the
final handler as its `next`. -/
theorem execute_singleton (m : Mw) (fh : Handler) (req : RequestContext) :
    execute [m] fh req = runProg emitExec (handlerNext fh) (m req) ⟨1, []⟩ := by
  have h1 : execute [m] fh req
      = runProg emitExec (execNext [m] fh 1) (m req) ⟨1, []⟩ := by
    simp only [execute]
    rw [if_neg (by simp)]
    simp only [execNext]
    rw [dif_pos (by simp)]
    rfl
  rw [h1]
  exact runProg_nx_congr emitExec _ _ (fun st => 1 ≤ st.idx)
    (fun o st h => h)
    (fun req' st h => execNext_past_end [m] fh req' st (by simpa using h) 1 Nat.zero_lt_one)
    (fun req' st st' res h heq => by
      rw [execNext_past_end [m] fh req' st (by simpa using h) 1 Nat.zero_lt_one] at heq
      simp only [handlerNext, Option.some.injEq, Prod.mk.injEq] at heq
      rw [← heq.1]
      exact h)
    (m req) ⟨1, []⟩ (Nat.le_refl 1)

/-- The retry loop invokes `next` (here: the transport) at most `rem`
further times from any state. -/
theorem retryGo_transport_bound (cfg : RetryConfig) (fh : Handler) (req : RequestContext) :
    ∀ (rem attempt : Nat) (st : ExecSt),
      ∃ st' res,
        runProg emitExec (handlerNext fh) (retryGo cfg req attempt rem) st = some (st', res)
          ∧ transportCount st'.trace ≤ transportCount st.trace + rem := by
  intro rem
  induction rem with
  | zero =>
      intro attempt st
      exact ⟨st, .error (.config "unreachable: retry loop fuel"), rfl, by omega⟩
  | succ rem ih =>
      intro attempt st
      simp only [retryGo, runProg, handlerNext]
      have hc1 : transportCount (st.trace ++ [.transport req])
          = transportCount st.trace + 1 := by
        rw [transportCount_append, transportCount_transport]
      cases hres : fh (transportCount st.trace) req with
      | ok r =>
          refine ⟨⟨st.idx, st.trace ++ [.transport req]⟩, .ok r, ?_, ?_⟩
          · simp only [callHandler, hres]
            rfl
          · simp only [hc1]
            omega
      | error e =>
          simp only [callHandler, hres]
          by_cases hl : attempt = cfg.retries
          · refine ⟨⟨st.idx, st.trace ++ [.transport req]⟩, .error e, ?_, ?_⟩
            · simp only [hl, if_pos rfl]
              rfl
            · simp only [hc1]
              omega
          · rw [if_neg hl]
            by_cases hcnd : cfg.retryCondition e = true
            · rw [hcnd]
              simp only [Bool.not_true, Bool.false_eq_true, if_false]
              by_cases hor : cfg.onRetry = true
              · rw [hor]
                simp only [if_pos rfl, runProg]
                obtain ⟨st', res, hrun, hb⟩ := ih (attempt + 1)
                  (emitExec (.delayed (calculateDelay attempt cfg.delay cfg.backoff))
                    (emitExec (.retryCb (attempt + 1)) ⟨st.idx, st.trace ++ [.transport req]⟩))
                refine ⟨st', res, hrun, ?_⟩
                have hc2 : transportCount
                    ((emitExec (.delayed (calculateDelay attempt cfg.delay cfg.backoff))
                      (emitExec (.retryCb (attempt + 1))
                        ⟨st.idx, st.trace ++ [.transport req]⟩)).trace)
                    = transportCount st.trace + 1 := by
                  simp only [emitExec, transportCount_append, transportCount_transport,
                    transportCount_obs]
                omega
              · simp only [Bool.not_eq_true] at hor
                rw [hor]
                simp only [Bool.false_eq_true, if_false, runProg]
                obtain ⟨st', res, hrun, hb⟩ := ih (attempt + 1)
                  (emitExec (.delayed (calculateDelay attempt cfg.delay cfg.backoff))
                    ⟨st.idx, st.trace ++ [.transport req]⟩)
                refine ⟨st', res, hrun, ?_⟩
                have hc2 : transportCount
                    ((emitExec (.delayed (calculateDelay attempt cfg.delay cfg.backoff))
                      ⟨st.idx, st.trace ++ [.transport req]⟩).trace)
                    = transportCount st.trace + 1 := by
                  simp only [emitExec, transportCount_append, transportCount_transport,
                    transportCount_obs]
                omega
            · simp only [Bool.not_eq_true] at hcnd
              rw [hcnd]
              refine ⟨⟨st.idx, st.trace ++ [.transport req]⟩, .error e, ?_, ?_⟩
              · rfl
              · simp only [hc1]
                omega

theorem transportCount_nil : transportCount [] = 0 := rfl

/-- A first-call error rejected by the retry condition (or hitting
`retries = 0`) is re-raised immediately after exactly one transport
invocation. -/
theorem retry_first_error_no_retry (cfg : RetryConfig) (fh : Handler) (req : RequestContext)
    (e : ZodseiError) (hres : fh 0 req = .error e) (hcnd : cfg.retryCondition e = false) :
    stripIdx (execute [retryMiddleware cfg] fh req) = some ([.transport req], .error e) := by
  rw [execute_singleton]
  simp only [retryMiddleware, retryGo, runProg, handlerNext, callHandler, transportCount_nil,
    List.nil_append]
  rw [hres]
  dsimp only
  by_cases h0 : 0 = cfg.retries
  · rw [if_pos h0]
    rfl
  · rw [if_neg h0, hcnd]
    rfl

/-- When the transport fails on every attempt with retryable errors,
the retry loop performs all its attempts, sleeping the computed
backoff delay before each retry, and finally re-raises the last
error. -/
theorem retryGo_all_fail (cfg : RetryConfig) (fh : Handler) (req : RequestContext)
    (errs : Nat → ZodseiError)
    (hfail : ∀ n, fh n req = .error (errs n))
    (hcond : ∀ n, n < cfg.retries → cfg.retryCondition (errs n) = true) :
    ∀ (rem attempt : Nat) (st : ExecSt),
      attempt ≤ cfg.retries →
      attempt + rem = cfg.retries + 1 →
      transportCount st.trace = attempt →
      runProg emitExec (handlerNext fh) (retryGo cfg req attempt rem) st
        = some (⟨st.idx, st.trace ++ failSegs cfg req attempt rem⟩,
            .error (errs cfg.retries)) := by
  intro rem
  induction rem with
  | zero => intro attempt st hle hsum; omega
  | succ rem ih =>
      intro attempt st hle hsum hcnt
      simp only [retryGo, runProg, handlerNext, callHandler, hcnt]
      rw [hfail attempt]
      dsimp only
      by_cases hl : attempt = cfg.retries
      · have hrem : rem = 0 := by omega
        subst hrem
        rw [if_pos hl]
        subst hl
        simp [failSegs, runProg]
      · rw [if_neg hl]
        have hlt : attempt < cfg.retries := Nat.lt_of_le_of_ne hle hl
        rw [hcond attempt hlt]
        simp only [Bool.not_true, Bool.false_eq_true, if_false]
        have hrem : rem ≠ 0 := by omega
        have hcnt1 : transportCount (st.trace ++ [.transport req])
            = attempt + 1 := by
          rw [transportCount_append, transportCount_transport, hcnt]
        by_cases hor : cfg.onRetry = true
        · rw [hor]
          simp only [if_pos rfl, runProg]
          have hrec := ih (attempt + 1)
            (emitExec (.delayed (calculateDelay attempt cfg.delay cfg.backoff))
              (emitExec (.retryCb (attempt + 1)) ⟨st.idx, st.trace ++ [.transport req]⟩))
            (by omega) (by omega)
            (by simp only [emitExec, transportCount_append, transportCount_obs, hcnt1])
          rw [hrec]
          simp only [emitExec, failSegs, if_neg hrem, hor, if_pos rfl]
          simp [List.append_assoc]
        · simp only [Bool.not_eq_true] at hor
          rw [hor]
          simp only [Bool.false_eq_true, if_false, runProg]
          have hrec := ih (attempt + 1)
            (emitExec (.delayed (calculateDelay attempt cfg.delay cfg.backoff))
              ⟨st.idx, st.trace ++ [.transport req]⟩)
            (by omega) (by omega)
            (by simp only [emitExec, transportCount_append, transportCount_obs, hcnt1])
          rw [hrec]
          simp only [emitExec, failSegs, if_neg hrem, hor, Bool.false_eq_true, if_false]
          simp [List.append_assoc]


/-- C5 counterexample: a `TimeoutError` is neither a network error nor
an HTTP error, yet the default retry condition retries it — the
transport runs twice and the call succeeds, where the claim's "retries
iff network error or retryable HTTP error" predicts a single
invocation and an immediate re-raise. -/
theorem C5_counterexample :
    defaultRetryCondition (.timeout 30000) = true ∧
    transportCount (traceOf (stripIdx (execute
        [retryMiddleware ⟨1, 5, .exponential, defaultRetryCondition, false⟩]
        timeoutThenOk req0))) = 2 ∧
    stripIdx (execute [retryMiddleware ⟨1, 5, .exponential, defaultRetryCondition, false⟩]
        timeoutThenOk req0)
      = some ([.transport req0, .obs (.delayed 5), .transport req0], .ok okResp) ∧
    (2 : Nat) ≠ 1 :=
  ⟨rfl, rfl, rfl, by omega⟩

/-- C5 (amended): retry middleware invokes `next` at most
`retries + 1` times; under the default condition an HTTP error with a
status other than ≥ 500/408/429 causes exactly one invocation and an
immediate re-raise, while every non-HTTP error (network, timeout, or
any other) and every HTTP error with status ≥ 500, 408 or 429 is
retried; before the (n+1)-th attempt it waits `delay*(n+1)` (linear)
or `delay*2^n` (exponential); on exhausting all retries it re-raises
the last error. -/
theorem C5_retry_behavior :
    (∀ (cfg : RetryConfig) (fh : Handler) (req : RequestContext),
        ∃ tr res, stripIdx (execute [retryMiddleware cfg] fh req) = some (tr, res) ∧
          transportCount tr ≤ cfg.retries + 1)
  ∧ (∀ (cfg : RetryConfig) (fh : Handler) (req : RequestContext) (msg sx : String) (s : Nat),
        cfg.retryCondition = defaultRetryCondition →
        fh 0 req = .error (.http msg s sx) →
        s < 500 → s ≠ 408 → s ≠ 429 →
        stripIdx (execute [retryMiddleware cfg] fh req)
          = some ([.transport req], .error (.http msg s sx)))
  ∧ (∀ (cfg : RetryConfig) (fh : Handler) (req : RequestContext) (errs : Nat → ZodseiError),
        (∀ n, fh n req = .error (errs n)) →
        (∀ n, n < cfg.retries → cfg.retryCondition (errs n) = true) →
        stripIdx (execute [retryMiddleware cfg] fh req)
          = some (failSegs cfg req 0 (cfg.retries + 1), .error (errs cfg.retries)))
  ∧ (∀ (n d : Nat), calculateDelay n d .linear = d * (n + 1)
        ∧ calculateDelay n d .exponential = d * 2 ^ n)
  ∧ (∀ (msg sx : String) (s : Nat),
        defaultRetryCondition (.http msg s sx)
          = (decide (500 ≤ s) || decide (s = 408) || decide (s = 429)))
  ∧ (∀ e : ZodseiError, (∀ (msg sx : String) (s : Nat), e ≠ .http msg s sx) →
        defaultRetryCondition e = true) := by
  refine ⟨?_, ?_, ?_, fun n d => ⟨rfl, rfl⟩, fun msg sx s => rfl, ?_⟩
  · intro cfg fh req
    rw [execute_singleton]
    simp only [retryMiddleware]
    obtain ⟨st', res, hrun, hb⟩ :=
      retryGo_transport_bound cfg fh req (cfg.retries + 1) 0 ⟨1, []⟩
    refine ⟨st'.trace, res, ?_, ?_⟩
    · rw [hrun]
      rfl
    · rw [transportCount_nil] at hb
      omega
  · intro cfg fh req msg sx s hdc hres h5 h408 h429
    refine retry_first_error_no_retry cfg fh req _ hres ?_
    rw [hdc]
    simp only [defaultRetryCondition]
    simp only [Bool.or_eq_false_iff, decide_eq_false_iff_not]
    omega
  · intro cfg fh req errs hfail hcond
    rw [execute_singleton]
    simp only [retryMiddleware]
    rw [retryGo_all_fail cfg fh req errs hfail hcond (cfg.retries + 1) 0 ⟨1, []⟩
      (Nat.zero_le _) (by omega) transportCount_nil]
    simp [stripIdx]
  · intro e he
    cases e with
    | http msg s sx => exact absurd rfl (he msg sx s)
    | validation m i t => rfl
    | network m => rfl
    | config m => rfl
    | timeout ms => rfl

/-- Witness for C5 (the spec's retry-skip scenario): a 404 with
`retries = 2` yields exactly one transport invocation and rejects with
the `HttpError`. -/
theorem C5_witness :
    stripIdx (execute [retryMiddleware ⟨2, 10, .exponential, defaultRetryCondition, false⟩]
        (fun _ _ => .error (.http "HTTP 404: Not Found" 404 "Not Found")) req0)
      = some ([.transport req0], .error (.http "HTTP 404: Not Found" 404 "Not Found")) :=
  C5_retry_behavior.2.1 ⟨2, 10, .exponential, defaultRetryCondition, false⟩
    (fun _ _ => .error (.http "HTTP 404: Not Found" 404 "Not Found")) req0
    "HTTP 404: Not Found" "Not Found" 404 rfl rfl (by omega) (by omega) (by omega)

end Zodsei
